import Mathlib

/-!
Shallow embedding of the `createForm` form-state engine
(`packages/sv-kit-form/src/lib/createForm.svelte.ts`).

JavaScript objects holding form values and error messages are modelled as
association lists in insertion order (`List (String × _)`), mirroring the
semantics of property read (`lookupKey`), property write (`setKey`: update in
place or append) and `delete` (`removeKey`).  The `SvelteSet`s `touched` and
`dirty` are modelled as duplicate-free lists in insertion order with `addSet`.
Validation rules are pure functions `(value, allValues) → error-or-null`,
returning `Option String` where `none` is JS `null`; a result counts as a
failure exactly when it is truthy in JS, i.e. a non-empty string.
-/

namespace SvKitForm

/-- A JavaScript value that can sit in a form field: `null`, `undefined`,
a string, a number or a boolean. -/
inductive Val where
  | vnull
  | vundefined
  | vstr (s : String)
  | vnum (n : Int)
  | vbool (b : Bool)
  deriving DecidableEq, Repr

/-- Object property read: the value at `key`, if present. -/
def lookupKey {α : Type} : List (String × α) → String → Option α
  | [], _ => none
  | (k, v) :: rest, key => if k = key then some v else lookupKey rest key

/-- Object property write `obj[key] = v`: update the existing entry in place,
or append a fresh one (JS insertion order). -/
def setKey {α : Type} : List (String × α) → String → α → List (String × α)
  | [], key, v => [(key, v)]
  | (k, w) :: rest, key, v =>
      if k = key then (k, v) :: rest else (k, w) :: setKey rest key v

/-- Object property removal `delete obj[key]`. -/
def removeKey {α : Type} : List (String × α) → String → List (String × α)
  | [], _ => []
  | (k, w) :: rest, key =>
      if k = key then removeKey rest key else (k, w) :: removeKey rest key

/-- Set add: insert at the end unless already a member. -/
def addSet (l : List String) (x : String) : List String :=
  if x ∈ l then l else l ++ [x]

/-- JS truthiness of an error-map entry: absent (`undefined`) and `""` are
falsy, any non-empty message is truthy. -/
def truthyErr : Option String → Bool
  | none => false
  | some s => decide (s ≠ "")

/-- A validation rule: `(normalizedValue, allValues) → error-or-null`. -/
abbrev Rule := Val → List (String × Val) → Option String

/-- A schema entry is a single rule or an array of rules
(`Array.isArray(rule) ? rule : [rule]`). -/
inductive RuleEntry where
  | single (r : Rule)
  | list (rs : List Rule)

/-- The source coercion `Array.isArray(rule) ? rule : [rule]`. -/
def RuleEntry.toRules : RuleEntry → List Rule
  | .single r => [r]
  | .list rs => rs

/-- A validation schema: field name to rule entry, in declaration order. -/
abbrev Schema := List (String × RuleEntry)

/-- Outcome of the awaited submit callback: it resolves or it throws/rejects. -/
inductive SubmitOutcome where
  | ok
  | thrown
  deriving DecidableEq, Repr

/-- The caller-supplied options of `createForm` (construction-time,
immutable for the engine's lifetime). -/
structure FormOptions where
  initialValues : List (String × Val)
  validationSchema : Option Schema
  onSubmit : Option (List (String × Val) → SubmitOutcome)
  validateOnChange : Bool := true
  validateOnBlur : Bool := true

/-- The engine's mutable state: `values`, `errors`, `touched`, `dirty` and
`isSubmitting` (field refs are a UI collaborator and carry no engine logic). -/
structure FormState where
  values : List (String × Val)
  errors : List (String × String)
  touched : List String
  dirty : List String
  isSubmitting : Bool

/-- The state right after `createForm`: `values = {...initialValues}` (a
shallow copy), everything else empty / false. -/
def createFormState (opts : FormOptions) : FormState :=
  { values := opts.initialValues
    errors := []
    touched := []
    dirty := []
    isSubmitting := false }

/-- Derived validity: `Object.keys(values).every((key) => !errors[key])`. -/
def isValid (s : FormState) : Bool :=
  (s.values.map Prod.fst).all fun key => !truthyErr (lookupKey s.errors key)

/-- Empty-value normalization before validation:
`value === null || value === undefined || value === '' ? '' : value`. -/
def normalize (v : Val) : Val :=
  if v = .vnull ∨ v = .vundefined ∨ v = .vstr "" then .vstr "" else v

/-- The `for (const validateRule of rules)` loop: the first truthy error
returned by a rule, if any (`if (error) { ...; return false; }`). -/
def firstRuleError : List Rule → Val → List (String × Val) → Option String
  | [], _, _ => none
  | r :: rest, v, vals =>
      match r v vals with
      | some e => if e = "" then firstRuleError rest v vals else some e
      | none => firstRuleError rest v vals

/-- Source operation `validateField(field)`: no-op success without a schema entry; otherwise
run the rules on the normalized current value, store the first truthy error
and return false, or delete the field's error and return true. -/
def validateField (opts : FormOptions) (s : FormState) (field : String) :
    Bool × FormState :=
  match opts.validationSchema with
  | none => (true, s)
  | some schema =>
    match lookupKey schema field with
    | none => (true, s)
    | some entry =>
      let value := (lookupKey s.values field).getD .vundefined
      let rules := entry.toRules
      let normalizedValue := normalize value
      match firstRuleError rules normalizedValue s.values with
      | some e => (false, { s with errors := setKey s.errors field e })
      | none => (true, { s with errors := removeKey s.errors field })

/-- One iteration of `validateForm`'s loop over the schema keys:
`if (!validateField(key)) { isFormValid = false; }`. -/
def validateFormStep (opts : FormOptions) (acc : Bool × FormState) (key : String) :
    Bool × FormState :=
  let r := validateField opts acc.2 key
  (acc.1 && r.1, r.2)

/-- Source operation `validateForm()`: mark every field of `values` touched, then run
`validateField` over every schema key, and-ing the results. -/
def validateForm (opts : FormOptions) (s : FormState) : Bool × FormState :=
  let s1 := { s with touched := (s.values.map Prod.fst).foldl addSet s.touched }
  match opts.validationSchema with
  | none => (true, s1)
  | some schema =>
    (schema.map Prod.fst).foldl (validateFormStep opts) (true, s1)

/-- Source operation `setError(field, error)`: direct error-map write. -/
def setError (s : FormState) (field error : String) : FormState :=
  { s with errors := setKey s.errors field error }

/-- Source operation `clearError(field)`: direct error-map delete. -/
def clearError (s : FormState) (field : String) : FormState :=
  { s with errors := removeKey s.errors field }

/-- Source operation `setValue(field, value)`: store the value, add the field to `dirty`;
when validate-on-change is on and the field is touched, clear its error and
re-validate it. -/
def setValue (opts : FormOptions) (s : FormState) (field : String) (value : Val) :
    FormState :=
  let s1 := { s with values := setKey s.values field value
                     dirty := addSet s.dirty field }
  if opts.validateOnChange && decide (field ∈ s1.touched) then
    (validateField opts (clearError s1 field) field).2
  else
    s1

/-- Source operation `handleChange(field, value)`: delegates to `setValue`. -/
def handleChange (opts : FormOptions) (s : FormState) (field : String)
    (value : Val) : FormState :=
  setValue opts s field value

/-- Source operation `handleBlur(field)`: add to `touched`; validate when validate-on-blur. -/
def handleBlur (opts : FormOptions) (s : FormState) (field : String) : FormState :=
  let s1 := { s with touched := addSet s.touched field }
  if opts.validateOnBlur then (validateField opts s1 field).2 else s1

/-- What `handleSubmit` produced: the final state, how many times the submit
callback ran, and the values snapshot it received (when it ran). -/
structure SubmitResult where
  state : FormState
  callCount : Nat
  callArg : Option (List (String × Val))

/-- Source operation `handleSubmit()`: set `isSubmitting`, run `validateForm`; on failure
release the flag and return without calling the callback (the scroll to the
first error is a UI collaborator effect); on success await the optional
callback, swallowing a thrown error, and release the flag in `finally`. -/
def handleSubmit (opts : FormOptions) (s : FormState) : SubmitResult :=
  let s1 : FormState := { s with isSubmitting := true }
  let v := validateForm opts s1
  if !v.1 then
    { state := { v.2 with isSubmitting := false }, callCount := 0, callArg := none }
  else
    match opts.onSubmit with
    | none =>
        { state := { v.2 with isSubmitting := false }, callCount := 0, callArg := none }
    | some onSubmit =>
      match onSubmit v.2.values with
      | .ok =>
          { state := { v.2 with isSubmitting := false }, callCount := 1
            callArg := some v.2.values }
      | .thrown =>
          { state := { v.2 with isSubmitting := false }, callCount := 1
            callArg := some v.2.values }

/-- Source operation `reset()`: write every initial key's initial value back into `values`,
delete every key of `errors`, clear `touched` and `dirty`.  `isSubmitting`
is not assigned. -/
def reset (opts : FormOptions) (s : FormState) : FormState :=
  let values1 := (opts.initialValues.map Prod.fst).foldl
    (fun vs key => setKey vs key ((lookupKey opts.initialValues key).getD .vundefined))
    s.values
  let errors1 := (s.errors.map Prod.fst).foldl removeKey s.errors
  { s with values := values1, errors := errors1, touched := [], dirty := [] }

/-- Source operation `resetErrors()`: delete every key of `errors`, touch nothing else. -/
def resetErrors (s : FormState) : FormState :=
  { s with errors := (s.errors.map Prod.fst).foldl removeKey s.errors }

/-- One engine operation, for stating properties quantified over the API. -/
inductive Op where
  | opSetValue (field : String) (value : Val)
  | opHandleChange (field : String) (value : Val)
  | opHandleBlur (field : String)
  | opValidateField (field : String)
  | opValidateForm
  | opSetError (field : String) (msg : String)
  | opClearError (field : String)
  | opResetErrors
  | opHandleSubmit
  | opReset
  deriving DecidableEq

/-- The state transformer of one engine operation. -/
def step (opts : FormOptions) : Op → FormState → FormState
  | .opSetValue f v, s => setValue opts s f v
  | .opHandleChange f v, s => handleChange opts s f v
  | .opHandleBlur f, s => handleBlur opts s f
  | .opValidateField f, s => (validateField opts s f).2
  | .opValidateForm, s => (validateForm opts s).2
  | .opSetError f e, s => setError s f e
  | .opClearError f, s => clearError s f
  | .opResetErrors, s => resetErrors s
  | .opHandleSubmit, s => (handleSubmit opts s).state
  | .opReset, s => reset opts s

/-- States reachable from creation by engine operations. -/
inductive Reachable (opts : FormOptions) : FormState → Prop where
  | create : Reachable opts (createFormState opts)
  | next (op : Op) {s : FormState} : Reachable opts s → Reachable opts (step opts op s)

/-! ### Concrete fixtures used to instantiate the theorems -/

/-- A rule that always fails with one message. -/
def ruleFailA : Rule := fun _ _ => some "first message"

/-- A rule that always fails with a different message. -/
def ruleFailB : Rule := fun _ _ => some "second message"

/-- The `validators.required` rule: empty (normalized) value fails. -/
def ruleRequired : Rule := fun v _ =>
  if v = .vstr "" then some "This field is required" else none

/-- A form whose only field carries two always-failing rules. -/
def optsTwoRules : FormOptions :=
  { initialValues := [("f", .vstr "")]
    validationSchema := some [("f", .list [ruleFailA, ruleFailB])]
    onSubmit := none }

/-- A form whose schema covers `"g"` but not `"f"`. -/
def optsOtherField : FormOptions :=
  { initialValues := [("f", .vstr "x"), ("g", .vstr "")]
    validationSchema := some [("g", .single ruleRequired)]
    onSubmit := none }

/-- A state of `optsOtherField` carrying a server-injected error on `"f"`. -/
def stateOtherField : FormState :=
  setError (createFormState optsOtherField) "f" "server rejected"

/-- A form that fails validation (required field empty) with a callback. -/
def optsFailing : FormOptions :=
  { initialValues := [("f", .vstr "")]
    validationSchema := some [("f", .single ruleRequired)]
    onSubmit := some fun _ => .ok }

/-- A schema-less form whose callback always throws. -/
def optsThrowing : FormOptions :=
  { initialValues := [("a", .vstr "hello")]
    validationSchema := none
    onSubmit := some fun _ => .thrown }

/-- A one-field form with no schema and no callback. -/
def optsPlain : FormOptions :=
  { initialValues := [("a", .vstr "x")]
    validationSchema := none
    onSubmit := none }

/-- The state of `optsPlain` after writing a field absent from the initial values. -/
def statePlainExtra : FormState :=
  step optsPlain (.opSetValue "b" (.vstr "y")) (createFormState optsPlain)

/-! ### Association list and set lemmas -/

theorem lookupKey_setKey_self {α : Type} (l : List (String × α)) (k : String) (v : α) :
    lookupKey (setKey l k v) k = some v := by
  induction l with
  | nil => simp [setKey, lookupKey]
  | cons p rest ih =>
      by_cases h : p.1 = k
      · simp [setKey, lookupKey, h]
      · simp [setKey, lookupKey, h, ih]

theorem lookupKey_setKey_ne {α : Type} (l : List (String × α)) (k k' : String) (v : α)
    (h : k' ≠ k) : lookupKey (setKey l k' v) k = lookupKey l k := by
  induction l with
  | nil => simp [setKey, lookupKey, h]
  | cons p rest ih =>
      by_cases hp : p.1 = k'
      · simp [setKey, lookupKey, hp, h]
      · simp only [setKey, hp, if_false, lookupKey]
        by_cases hk : p.1 = k <;> simp [lookupKey, hk, ih]

theorem lookupKey_removeKey_self {α : Type} (l : List (String × α)) (k : String) :
    lookupKey (removeKey l k) k = none := by
  induction l with
  | nil => simp [removeKey, lookupKey]
  | cons p rest ih =>
      by_cases h : p.1 = k
      · simp [removeKey, h, ih]
      · simp [removeKey, lookupKey, h, ih]

theorem lookupKey_removeKey_ne {α : Type} (l : List (String × α)) (k k' : String)
    (h : k' ≠ k) : lookupKey (removeKey l k') k = lookupKey l k := by
  induction l with
  | nil => simp [removeKey]
  | cons p rest ih =>
      have h' : ¬k = k' := fun hh => h hh.symm
      by_cases hp : p.1 = k'
      · have hk : ¬p.1 = k := by rw [hp]; exact h
        simp [removeKey, lookupKey, hp, hk, ih, h]
      · by_cases hk : p.1 = k <;> simp [removeKey, lookupKey, hp, hk, ih, h, h']

theorem mem_removeKey {α : Type} {l : List (String × α)} {p : String × α} {k : String}
    (h : p ∈ removeKey l k) : p ∈ l ∧ p.1 ≠ k := by
  induction l with
  | nil => simp [removeKey] at h
  | cons q rest ih =>
      by_cases hq : q.1 = k
      · simp only [removeKey, hq, if_true] at h
        exact ⟨List.mem_cons_of_mem _ (ih h).1, (ih h).2⟩
      · simp only [removeKey, hq, if_false, List.mem_cons] at h
        rcases h with h | h
        · exact ⟨by simp [h], by rw [h]; exact hq⟩
        · exact ⟨List.mem_cons_of_mem _ (ih h).1, (ih h).2⟩

theorem foldl_removeKey_all_keys {α : Type} (ks : List String) :
    ∀ l : List (String × α), (∀ p ∈ l, p.1 ∈ ks) → ks.foldl removeKey l = [] := by
  induction ks with
  | nil =>
      intro l h
      cases l with
      | nil => rfl
      | cons p rest => exact absurd (h p (by simp)) (by simp)
  | cons k rest ih =>
      intro l h
      simp only [List.foldl_cons]
      refine ih (removeKey l k) ?_
      intro p hp
      rcases mem_removeKey hp with ⟨hmem, hne⟩
      rcases h p hmem with h1
      simp only [List.mem_cons] at h1
      exact h1.resolve_left hne

theorem lookupKey_eq_none_iff {α : Type} (l : List (String × α)) (k : String) :
    lookupKey l k = none ↔ k ∉ l.map Prod.fst := by
  induction l with
  | nil => simp [lookupKey]
  | cons p rest ih =>
      by_cases h : p.1 = k
      · simp [lookupKey, h]
      · have h' : ¬k = p.1 := fun hh => h hh.symm
        simp [lookupKey, h, ih, h']

theorem lookupKey_isSome_of_mem {α : Type} {l : List (String × α)} {k : String}
    (h : k ∈ l.map Prod.fst) : ∃ v, lookupKey l k = some v := by
  cases hl : lookupKey l k with
  | none => exact absurd ((lookupKey_eq_none_iff l k).mp hl) (by simp [h])
  | some v => exact ⟨v, rfl⟩

theorem subset_addSet (l : List String) (x : String) : l ⊆ addSet l x := by
  unfold addSet
  by_cases h : x ∈ l <;> simp [h]

theorem mem_addSet_self (l : List String) (x : String) : x ∈ addSet l x := by
  unfold addSet
  by_cases h : x ∈ l <;> simp [h]

theorem subset_foldl_addSet (ks : List String) :
    ∀ l : List String, l ⊆ ks.foldl addSet l := by
  induction ks with
  | nil => intro l; exact fun _ h => h
  | cons k rest ih =>
      intro l
      exact fun x hx => ih (addSet l k) (subset_addSet l k hx)

theorem mem_foldl_addSet {ks : List String} {k : String} (hk : k ∈ ks) :
    ∀ l : List String, k ∈ ks.foldl addSet l := by
  induction ks with
  | nil => simp at hk
  | cons a rest ih =>
      intro l
      simp only [List.foldl_cons]
      rcases List.mem_cons.mp hk with rfl | hk'
      · exact subset_foldl_addSet rest (addSet l k) (mem_addSet_self l k)
      · exact ih hk' (addSet l a)

/-! ### Shape of `validateField` and framing lemmas -/

theorem validateField_of_no_schema (opts : FormOptions) (s : FormState) (field : String)
    (hsch : opts.validationSchema = none) :
    validateField opts s field = (true, s) := by
  simp [validateField, hsch]

theorem validateField_of_no_entry (opts : FormOptions) (s : FormState) (field : String)
    (schema : Schema) (hsch : opts.validationSchema = some schema)
    (hent : lookupKey schema field = none) :
    validateField opts s field = (true, s) := by
  simp [validateField, hsch, hent]

theorem validateField_of_fail (opts : FormOptions) (s : FormState) (field : String)
    (schema : Schema) (entry : RuleEntry) (e : String)
    (hsch : opts.validationSchema = some schema)
    (hent : lookupKey schema field = some entry)
    (hfe : firstRuleError entry.toRules
        (normalize ((lookupKey s.values field).getD .vundefined)) s.values = some e) :
    validateField opts s field = (false, { s with errors := setKey s.errors field e }) := by
  simp [validateField, hsch, hent, hfe]

theorem validateField_of_pass (opts : FormOptions) (s : FormState) (field : String)
    (schema : Schema) (entry : RuleEntry)
    (hsch : opts.validationSchema = some schema)
    (hent : lookupKey schema field = some entry)
    (hfe : firstRuleError entry.toRules
        (normalize ((lookupKey s.values field).getD .vundefined)) s.values = none) :
    validateField opts s field = (true, { s with errors := removeKey s.errors field }) := by
  simp [validateField, hsch, hent, hfe]

theorem validateField_shape (opts : FormOptions) (s : FormState) (field : String) :
    ∃ b errs, validateField opts s field = (b, { s with errors := errs }) := by
  cases hsch : opts.validationSchema with
  | none =>
      exact ⟨true, s.errors, by rw [validateField_of_no_schema opts s field hsch]⟩
  | some schema =>
      cases hent : lookupKey schema field with
      | none =>
          exact ⟨true, s.errors,
            by rw [validateField_of_no_entry opts s field schema hsch hent]⟩
      | some entry =>
          cases hfe : firstRuleError entry.toRules
              (normalize ((lookupKey s.values field).getD .vundefined)) s.values with
          | none =>
              exact ⟨true, removeKey s.errors field,
                validateField_of_pass opts s field schema entry hsch hent hfe⟩
          | some e =>
              exact ⟨false, setKey s.errors field e,
                validateField_of_fail opts s field schema entry e hsch hent hfe⟩

theorem validateField_values (opts : FormOptions) (s : FormState) (field : String) :
    (validateField opts s field).2.values = s.values := by
  obtain ⟨b, errs, h⟩ := validateField_shape opts s field
  rw [h]

theorem validateField_touched (opts : FormOptions) (s : FormState) (field : String) :
    (validateField opts s field).2.touched = s.touched := by
  obtain ⟨b, errs, h⟩ := validateField_shape opts s field
  rw [h]

theorem validateField_dirty (opts : FormOptions) (s : FormState) (field : String) :
    (validateField opts s field).2.dirty = s.dirty := by
  obtain ⟨b, errs, h⟩ := validateField_shape opts s field
  rw [h]

theorem validateField_isSubmitting (opts : FormOptions) (s : FormState) (field : String) :
    (validateField opts s field).2.isSubmitting = s.isSubmitting := by
  obtain ⟨b, errs, h⟩ := validateField_shape opts s field
  rw [h]

theorem truthyErr_eq_false_iff (o : Option String) :
    truthyErr o = false ↔ o = none ∨ o = some "" := by
  cases o with
  | none => simp [truthyErr]
  | some s => simp [truthyErr]

theorem firstRuleError_eq_none (rs : List Rule) (v : Val) (vals : List (String × Val))
    (h : ∀ r ∈ rs, truthyErr (r v vals) = false) :
    firstRuleError rs v vals = none := by
  induction rs with
  | nil => rfl
  | cons r rest ih =>
      have htail : ∀ r' ∈ rest, truthyErr (r' v vals) = false :=
        fun r' hr' => h r' (List.mem_cons_of_mem r hr')
      rcases (truthyErr_eq_false_iff _).mp (h r (List.mem_cons_self r rest)) with h0 | h0 <;>
        simp [firstRuleError, h0, ih htail]

theorem firstRuleError_append (pre : List Rule) (r : Rule) (post : List Rule)
    (v : Val) (vals : List (String × Val)) (e : String)
    (hpre : ∀ r' ∈ pre, truthyErr (r' v vals) = false)
    (hr : r v vals = some e) (he : e ≠ "") :
    firstRuleError (pre ++ r :: post) v vals = some e := by
  induction pre with
  | nil => simp [firstRuleError, hr, he]
  | cons q rest ih =>
      have htail : ∀ r' ∈ rest, truthyErr (r' v vals) = false :=
        fun r' hr' => hpre r' (List.mem_cons_of_mem q hr')
      rcases (truthyErr_eq_false_iff _).mp (hpre q (List.mem_cons_self q rest)) with h0 | h0 <;>
        simp [firstRuleError, h0, ih htail]

theorem validateField_fst_congr (opts : FormOptions) (s s' : FormState) (field : String)
    (h : s.values = s'.values) :
    (validateField opts s field).1 = (validateField opts s' field).1 := by
  cases hsch : opts.validationSchema with
  | none =>
      rw [validateField_of_no_schema opts s field hsch,
        validateField_of_no_schema opts s' field hsch]
  | some schema =>
      cases hent : lookupKey schema field with
      | none =>
          rw [validateField_of_no_entry opts s field schema hsch hent,
            validateField_of_no_entry opts s' field schema hsch hent]
      | some entry =>
          cases hfe : firstRuleError entry.toRules
              (normalize ((lookupKey s.values field).getD .vundefined)) s.values with
          | none =>
              rw [validateField_of_pass opts s field schema entry hsch hent hfe,
                validateField_of_pass opts s' field schema entry hsch hent (h ▸ hfe)]
          | some e =>
              rw [validateField_of_fail opts s field schema entry e hsch hent hfe,
                validateField_of_fail opts s' field schema entry e hsch hent (h ▸ hfe)]

theorem validateField_errors_ne (opts : FormOptions) (s : FormState) (field k : String)
    (hne : k ≠ field) :
    lookupKey (validateField opts s field).2.errors k = lookupKey s.errors k := by
  cases hsch : opts.validationSchema with
  | none => rw [validateField_of_no_schema opts s field hsch]
  | some schema =>
      cases hent : lookupKey schema field with
      | none => rw [validateField_of_no_entry opts s field schema hsch hent]
      | some entry =>
          cases hfe : firstRuleError entry.toRules
              (normalize ((lookupKey s.values field).getD .vundefined)) s.values with
          | none =>
              rw [validateField_of_pass opts s field schema entry hsch hent hfe]
              exact lookupKey_removeKey_ne s.errors k field (fun hh => hne hh.symm)
          | some e =>
              rw [validateField_of_fail opts s field schema entry e hsch hent hfe]
              exact lookupKey_setKey_ne s.errors k field e (fun hh => hne hh.symm)

/-! ### The `validateForm` loop -/

theorem foldl_validateFormStep_frame (opts : FormOptions) (ks : List String) :
    ∀ (b : Bool) (t : FormState),
      (ks.foldl (validateFormStep opts) (b, t)).2.values = t.values ∧
      (ks.foldl (validateFormStep opts) (b, t)).2.touched = t.touched ∧
      (ks.foldl (validateFormStep opts) (b, t)).2.dirty = t.dirty ∧
      (ks.foldl (validateFormStep opts) (b, t)).2.isSubmitting = t.isSubmitting := by
  induction ks with
  | nil => exact fun b t => ⟨rfl, rfl, rfl, rfl⟩
  | cons k rest ih =>
      intro b t
      obtain ⟨h1, h2, h3, h4⟩ :=
        ih (b && (validateField opts t k).1) (validateField opts t k).2
      exact ⟨h1.trans (validateField_values opts t k),
        h2.trans (validateField_touched opts t k),
        h3.trans (validateField_dirty opts t k),
        h4.trans (validateField_isSubmitting opts t k)⟩

theorem foldl_validateFormStep_fst (opts : FormOptions) (ks : List String) :
    ∀ (b : Bool) (t w : FormState), t.values = w.values →
      ((ks.foldl (validateFormStep opts) (b, t)).1 = true ↔
        b = true ∧ ∀ k ∈ ks, (validateField opts w k).1 = true) := by
  induction ks with
  | nil => intro b t w hw; simp
  | cons k rest ih =>
      intro b t w hw
      have hcong := validateField_fst_congr opts t w k hw
      have hvals : (validateField opts t k).2.values = w.values :=
        (validateField_values opts t k).trans hw
      have hrest := ih (b && (validateField opts t k).1) (validateField opts t k).2 w hvals
      have hgoal : (List.foldl (validateFormStep opts) (b, t) (k :: rest)).1
          = (List.foldl (validateFormStep opts)
              (b && (validateField opts t k).1, (validateField opts t k).2) rest).1 := rfl
      rw [hgoal, hrest, hcong]
      simp only [Bool.and_eq_true, List.forall_mem_cons, and_assoc]

theorem foldl_validateFormStep_errors_ne (opts : FormOptions) (ks : List String)
    (key : String) (hk : key ∉ ks) :
    ∀ (b : Bool) (t : FormState),
      lookupKey (ks.foldl (validateFormStep opts) (b, t)).2.errors key
        = lookupKey t.errors key := by
  induction ks with
  | nil => intro b t; rfl
  | cons k rest ih =>
      intro b t
      have hsplit : ¬(key = k ∨ key ∈ rest) := fun h => hk (List.mem_cons.mpr h)
      obtain ⟨hne, hnr⟩ := not_or.mp hsplit
      have hstep : (List.foldl (validateFormStep opts) (b, t) (k :: rest))
          = List.foldl (validateFormStep opts)
              (b && (validateField opts t k).1, (validateField opts t k).2) rest := rfl
      rw [hstep, ih hnr]
      exact validateField_errors_ne opts t k key hne

theorem validateForm_eq_of_none (opts : FormOptions) (s : FormState)
    (hsch : opts.validationSchema = none) :
    validateForm opts s
      = (true, { s with touched := (s.values.map Prod.fst).foldl addSet s.touched }) := by
  simp [validateForm, hsch]

theorem validateForm_eq_of_some (opts : FormOptions) (s : FormState) (schema : Schema)
    (hsch : opts.validationSchema = some schema) :
    validateForm opts s
      = (schema.map Prod.fst).foldl (validateFormStep opts)
          (true, { s with touched := (s.values.map Prod.fst).foldl addSet s.touched }) := by
  simp [validateForm, hsch]

theorem validateForm_touched (opts : FormOptions) (s : FormState) :
    (validateForm opts s).2.touched = (s.values.map Prod.fst).foldl addSet s.touched := by
  cases hsch : opts.validationSchema with
  | none => rw [validateForm_eq_of_none opts s hsch]
  | some schema =>
      rw [validateForm_eq_of_some opts s schema hsch]
      exact (foldl_validateFormStep_frame opts (schema.map Prod.fst) true _).2.1

theorem validateForm_values (opts : FormOptions) (s : FormState) :
    (validateForm opts s).2.values = s.values := by
  cases hsch : opts.validationSchema with
  | none => rw [validateForm_eq_of_none opts s hsch]
  | some schema =>
      rw [validateForm_eq_of_some opts s schema hsch]
      exact (foldl_validateFormStep_frame opts (schema.map Prod.fst) true _).1

theorem validateForm_dirty (opts : FormOptions) (s : FormState) :
    (validateForm opts s).2.dirty = s.dirty := by
  cases hsch : opts.validationSchema with
  | none => rw [validateForm_eq_of_none opts s hsch]
  | some schema =>
      rw [validateForm_eq_of_some opts s schema hsch]
      exact (foldl_validateFormStep_frame opts (schema.map Prod.fst) true _).2.2.1

theorem validateForm_isSubmitting (opts : FormOptions) (s : FormState) :
    (validateForm opts s).2.isSubmitting = s.isSubmitting := by
  cases hsch : opts.validationSchema with
  | none => rw [validateForm_eq_of_none opts s hsch]
  | some schema =>
      rw [validateForm_eq_of_some opts s schema hsch]
      exact (foldl_validateFormStep_frame opts (schema.map Prod.fst) true _).2.2.2

/-! ### `setValue`, `handleBlur`, `handleSubmit`, `reset` equations -/

theorem setValue_eq_of_revalidate (opts : FormOptions) (s : FormState) (field : String)
    (value : Val) (hc : (opts.validateOnChange && decide (field ∈ s.touched)) = true) :
    setValue opts s field value
      = (validateField opts
          (clearError { s with values := setKey s.values field value,
                               dirty := addSet s.dirty field } field) field).2 := by
  simp only [setValue, hc, if_true]

theorem setValue_eq_of_skip (opts : FormOptions) (s : FormState) (field : String)
    (value : Val) (hc : (opts.validateOnChange && decide (field ∈ s.touched)) = false) :
    setValue opts s field value
      = { s with values := setKey s.values field value,
                 dirty := addSet s.dirty field } := by
  simp only [setValue, hc, Bool.false_eq_true, if_false]

theorem setValue_values (opts : FormOptions) (s : FormState) (field : String) (value : Val) :
    (setValue opts s field value).values = setKey s.values field value := by
  cases hc : (opts.validateOnChange && decide (field ∈ s.touched)) with
  | true =>
      rw [setValue_eq_of_revalidate opts s field value hc, validateField_values]
      rfl
  | false =>
      rw [setValue_eq_of_skip opts s field value hc]

theorem setValue_dirty (opts : FormOptions) (s : FormState) (field : String) (value : Val) :
    (setValue opts s field value).dirty = addSet s.dirty field := by
  cases hc : (opts.validateOnChange && decide (field ∈ s.touched)) with
  | true =>
      rw [setValue_eq_of_revalidate opts s field value hc, validateField_dirty]
      rfl
  | false =>
      rw [setValue_eq_of_skip opts s field value hc]

theorem setValue_touched (opts : FormOptions) (s : FormState) (field : String) (value : Val) :
    (setValue opts s field value).touched = s.touched := by
  cases hc : (opts.validateOnChange && decide (field ∈ s.touched)) with
  | true =>
      rw [setValue_eq_of_revalidate opts s field value hc, validateField_touched]
      rfl
  | false =>
      rw [setValue_eq_of_skip opts s field value hc]

theorem handleBlur_touched (opts : FormOptions) (s : FormState) (field : String) :
    (handleBlur opts s field).touched = addSet s.touched field := by
  unfold handleBlur
  cases hb : opts.validateOnBlur with
  | true => simp only [if_true, validateField_touched]
  | false => simp only [Bool.false_eq_true, if_false]

theorem handleBlur_dirty (opts : FormOptions) (s : FormState) (field : String) :
    (handleBlur opts s field).dirty = s.dirty := by
  unfold handleBlur
  cases hb : opts.validateOnBlur with
  | true => simp only [if_true, validateField_dirty]
  | false => simp only [Bool.false_eq_true, if_false]

theorem handleSubmit_state (opts : FormOptions) (s : FormState) :
    (handleSubmit opts s).state
      = { (validateForm opts { s with isSubmitting := true }).2 with
          isSubmitting := false } := by
  simp only [handleSubmit]
  split
  · rfl
  · split
    · rfl
    · split <;> rfl

/-! ### `reset` lemmas -/

theorem lookupKey_foldl_setKey_not_mem {α : Type} (ks : List String) (f : String → α) :
    ∀ (l : List (String × α)) (k : String), k ∉ ks →
      lookupKey (ks.foldl (fun vs key => setKey vs key (f key)) l) k = lookupKey l k := by
  induction ks with
  | nil => intro l k _; rfl
  | cons a rest ih =>
      intro l k hk
      obtain ⟨hne, hnr⟩ := not_or.mp fun h => hk (List.mem_cons.mpr h)
      simp only [List.foldl_cons]
      rw [ih (setKey l a (f a)) k hnr]
      exact lookupKey_setKey_ne l k a (f a) (fun hh => hne hh.symm)

theorem lookupKey_foldl_setKey_mem {α : Type} (ks : List String) (f : String → α) :
    ∀ (l : List (String × α)) (k : String), k ∈ ks →
      lookupKey (ks.foldl (fun vs key => setKey vs key (f key)) l) k = some (f k) := by
  induction ks with
  | nil => intro l k hk; simp at hk
  | cons a rest ih =>
      intro l k hk
      simp only [List.foldl_cons]
      by_cases hr : k ∈ rest
      · exact ih (setKey l a (f a)) k hr
      · have hka : k = a := (List.mem_cons.mp hk).resolve_right hr
        subst hka
        rw [lookupKey_foldl_setKey_not_mem rest f (setKey l k (f k)) k hr]
        exact lookupKey_setKey_self l k (f k)

theorem map_fst_setKey_mem {α : Type} (l : List (String × α)) (k : String) (v : α)
    (h : k ∈ l.map Prod.fst) : (setKey l k v).map Prod.fst = l.map Prod.fst := by
  induction l with
  | nil => simp at h
  | cons p rest ih =>
      by_cases hp : p.1 = k
      · simp [setKey, hp]
      · have hr : k ∈ rest.map Prod.fst := by
          rcases List.mem_cons.mp h with h1 | h1
          · exact absurd h1.symm (by simpa [eq_comm] using hp)
          · exact h1
        simp [setKey, hp, ih hr]

theorem map_fst_foldl_setKey {α : Type} (ks : List String) (f : String → α) :
    ∀ l : List (String × α), (∀ k ∈ ks, k ∈ l.map Prod.fst) →
      (ks.foldl (fun vs key => setKey vs key (f key)) l).map Prod.fst = l.map Prod.fst := by
  induction ks with
  | nil => intro l _; rfl
  | cons a rest ih =>
      intro l h
      simp only [List.foldl_cons]
      have ha : a ∈ l.map Prod.fst := h a (List.mem_cons_self a rest)
      have hkeys : (setKey l a (f a)).map Prod.fst = l.map Prod.fst :=
        map_fst_setKey_mem l a (f a) ha
      rw [ih (setKey l a (f a)) (fun k hk => hkeys ▸ h k (List.mem_cons_of_mem a hk)),
        hkeys]

theorem assoc_ext {α : Type} :
    ∀ l1 l2 : List (String × α), l1.map Prod.fst = l2.map Prod.fst →
      (l1.map Prod.fst).Nodup →
      (∀ k ∈ l1.map Prod.fst, lookupKey l1 k = lookupKey l2 k) → l1 = l2 := by
  intro l1
  induction l1 with
  | nil =>
      intro l2 hkeys _ _
      exact (List.map_eq_nil_iff.mp hkeys.symm).symm
  | cons p rest ih =>
      intro l2 hkeys hnd hlook
      cases l2 with
      | nil => simp at hkeys
      | cons q rest2 =>
          simp only [List.map_cons, List.cons.injEq] at hkeys
          obtain ⟨hpq, hrest⟩ := hkeys
          have hlookp := hlook p.1 (by simp)
          have hhead : p = q := by
            have h1 : lookupKey (p :: rest) p.1 = some p.2 := by simp [lookupKey]
            have h2 : lookupKey (q :: rest2) p.1 = some q.2 := by
              simp [lookupKey, hpq.symm]
            rw [h1, h2] at hlookp
            have := Option.some.inj hlookp
            exact Prod.ext hpq this
          rw [List.map_cons] at hnd
          obtain ⟨hnotin, hndrest⟩ := List.nodup_cons.mp hnd
          have htail : rest = rest2 := by
            refine ih rest2 hrest hndrest ?_
            · intro k hk
              have hkne : p.1 ≠ k := fun hh => hnotin (hh ▸ hk)
              have := hlook k (by simp [hk])
              simpa [lookupKey, hkne, hpq ▸ hkne] using this
          rw [hhead, htail]

theorem reset_errors (opts : FormOptions) (s : FormState) :
    (reset opts s).errors = [] := by
  exact foldl_removeKey_all_keys (s.errors.map Prod.fst) s.errors
    (fun p hp => List.mem_map_of_mem Prod.fst hp)

theorem reset_values_lookup (opts : FormOptions) (s : FormState) (key : String) :
    lookupKey (reset opts s).values key
      = if key ∈ opts.initialValues.map Prod.fst
          then some ((lookupKey opts.initialValues key).getD .vundefined)
          else lookupKey s.values key := by
  by_cases hk : key ∈ opts.initialValues.map Prod.fst
  · rw [if_pos hk]
    exact lookupKey_foldl_setKey_mem (opts.initialValues.map Prod.fst) _ s.values key hk
  · rw [if_neg hk]
    exact lookupKey_foldl_setKey_not_mem (opts.initialValues.map Prod.fst) _ s.values key hk

/-! ### The claims -/

/-- C1: `isValid` holds iff every field name present in `values` has no
truthy entry in `errors` (an absent entry and an empty-string entry are both
falsy), and an error entry stored under a key not present in `values` never
changes `isValid`.  `isValid` is a derived function of the current
`values`/`errors` alone, so the equivalence holds at every state, in
particular after every engine operation. -/
theorem isValid_iff_no_truthy_error (s : FormState) :
    (isValid s = true ↔
      ∀ key ∈ s.values.map Prod.fst,
        lookupKey s.errors key = none ∨ lookupKey s.errors key = some "") ∧
    (∀ key msg, key ∉ s.values.map Prod.fst →
      isValid { s with errors := setKey s.errors key msg } = isValid s) := by
  constructor
  · simp only [isValid, List.all_eq_true, Bool.not_eq_true']
    exact ⟨fun h key hk => (truthyErr_eq_false_iff _).mp (h key hk),
      fun h key hk => (truthyErr_eq_false_iff _).mpr (h key hk)⟩
  · intro key msg hk
    simp only [isValid]
    apply Bool.eq_iff_iff.mpr
    simp only [List.all_eq_true]
    constructor <;> intro h k' hk'
    · have hne : key ≠ k' := fun hh => hk (hh ▸ hk')
      have hx := h k' hk'
      rwa [lookupKey_setKey_ne s.errors k' key msg hne] at hx
    · have hne : key ≠ k' := fun hh => hk (hh ▸ hk')
      have hx := h k' hk'
      rwa [← lookupKey_setKey_ne s.errors k' key msg hne] at hx

/-- C2: with a schema entry for the field, `validateField` normalizes the
candidate value (`null`, `undefined` and `""` all become `""`), runs the
entry's rules in declared order, stores the first truthy message in
`errors[field]` and returns false without the later rules mattering, and
when every rule passes it removes the field's error entry and returns
true. -/
theorem validateField_rules_spec (opts : FormOptions) (schema : Schema)
    (s : FormState) (field : String) (entry : RuleEntry)
    (hsch : opts.validationSchema = some schema)
    (hent : lookupKey schema field = some entry) :
    (normalize .vnull = .vstr "" ∧ normalize .vundefined = .vstr "" ∧
      normalize (.vstr "") = .vstr "") ∧
    (∀ pre rule post e, entry.toRules = pre ++ rule :: post →
      (∀ r ∈ pre,
        truthyErr (r (normalize ((lookupKey s.values field).getD .vundefined)) s.values)
          = false) →
      rule (normalize ((lookupKey s.values field).getD .vundefined)) s.values = some e →
      e ≠ "" →
      validateField opts s field
        = (false, { s with errors := setKey s.errors field e })) ∧
    ((∀ r ∈ entry.toRules,
        truthyErr (r (normalize ((lookupKey s.values field).getD .vundefined)) s.values)
          = false) →
      validateField opts s field
        = (true, { s with errors := removeKey s.errors field })) := by
  refine ⟨⟨by decide, by decide, by decide⟩, ?_, ?_⟩
  · intro pre rule post e hsplit hpre hr he
    refine validateField_of_fail opts s field schema entry e hsch hent ?_
    rw [hsplit]
    exact firstRuleError_append pre rule post _ _ e hpre hr he
  · intro hall
    exact validateField_of_pass opts s field schema entry hsch hent
      (firstRuleError_eq_none _ _ _ hall)

/-- Witness for C2: on a schema `f: [ruleFailA, ruleFailB]` the stored error
is `ruleFailA`'s message. -/
theorem validateField_rules_spec_witness :
    validateField optsTwoRules (createFormState optsTwoRules) "f"
      = (false, { createFormState optsTwoRules with
          errors := [("f", "first message")] }) := by
  have h := validateField_rules_spec optsTwoRules
    [("f", .list [ruleFailA, ruleFailB])] (createFormState optsTwoRules) "f"
    (.list [ruleFailA, ruleFailB]) rfl rfl
  exact h.2.1 [] ruleFailA [ruleFailB] "first message" rfl (by simp) rfl (by decide)

/-- C3: a field with no schema entry (including when no schema was supplied)
validates to true and the state — in particular `errors` — is left entirely
unchanged. -/
theorem validateField_schemaless (opts : FormOptions) (s : FormState) (field : String)
    (h : ∀ schema, opts.validationSchema = some schema → lookupKey schema field = none) :
    validateField opts s field = (true, s) := by
  cases hsch : opts.validationSchema with
  | none => exact validateField_of_no_schema opts s field hsch
  | some schema =>
      exact validateField_of_no_entry opts s field schema hsch (h schema hsch)

/-- Witness for C3: `"f"` has no entry in `optsOtherField`'s schema, so its
previously injected error survives `validateField`. -/
theorem validateField_schemaless_witness :
    validateField optsOtherField stateOtherField "f" = (true, stateOtherField) :=
  validateField_schemaless optsOtherField stateOtherField "f"
    (fun schema hs => by
      rw [show optsOtherField.validationSchema
          = some [("g", RuleEntry.single ruleRequired)] from rfl] at hs
      cases hs
      rfl)

/-- C4: `validateForm` adds every field of `values` to `touched` regardless
of the schema; with a schema it returns true iff every schema-bearing field
validates, and the error entry of any key without a schema entry is
untouched; without a schema it returns true having changed nothing but
`touched`. -/
theorem validateForm_spec (opts : FormOptions) (s : FormState) :
    (∀ key ∈ s.values.map Prod.fst, key ∈ (validateForm opts s).2.touched) ∧
    (∀ schema, opts.validationSchema = some schema →
      (((validateForm opts s).1 = true ↔
          ∀ key ∈ schema.map Prod.fst, (validateField opts s key).1 = true) ∧
        ∀ key, lookupKey schema key = none →
          lookupKey (validateForm opts s).2.errors key = lookupKey s.errors key)) ∧
    (opts.validationSchema = none →
      validateForm opts s
        = (true, { s with
            touched := (s.values.map Prod.fst).foldl addSet s.touched })) := by
  refine ⟨?_, ?_, fun hsch => validateForm_eq_of_none opts s hsch⟩
  · intro key hk
    rw [validateForm_touched]
    exact mem_foldl_addSet hk s.touched
  · intro schema hsch
    constructor
    · rw [validateForm_eq_of_some opts s schema hsch]
      have hfst := foldl_validateFormStep_fst opts (schema.map Prod.fst) true
        { s with touched := (s.values.map Prod.fst).foldl addSet s.touched } s rfl
      rw [hfst]
      simp
    · intro key hkey
      have hnot : key ∉ schema.map Prod.fst := (lookupKey_eq_none_iff schema key).mp hkey
      rw [validateForm_eq_of_some opts s schema hsch]
      exact foldl_validateFormStep_errors_ne opts (schema.map Prod.fst) key hnot true _

/-- C5: `setValue` stores the value, adds the field to `dirty`
unconditionally, never changes `touched`; when validate-on-change is enabled
and the field is already touched it clears the field's error and immediately
re-validates the field, and otherwise it leaves the error map untouched;
`handleChange` is the same function. -/
theorem setValue_handleChange_spec (opts : FormOptions) (s : FormState)
    (field : String) (value : Val) :
    lookupKey (setValue opts s field value).values field = some value ∧
    field ∈ (setValue opts s field value).dirty ∧
    (setValue opts s field value).touched = s.touched ∧
    ((opts.validateOnChange && decide (field ∈ s.touched)) = true →
      setValue opts s field value
        = (validateField opts
            (clearError { s with values := setKey s.values field value,
                                 dirty := addSet s.dirty field } field) field).2) ∧
    ((opts.validateOnChange && decide (field ∈ s.touched)) = false →
      (setValue opts s field value).errors = s.errors ∧
      setValue opts s field value
        = { s with values := setKey s.values field value,
                   dirty := addSet s.dirty field }) ∧
    handleChange opts s field value = setValue opts s field value := by
  refine ⟨?_, ?_, setValue_touched opts s field value,
    fun hc => setValue_eq_of_revalidate opts s field value hc,
    fun hc => ⟨by rw [setValue_eq_of_skip opts s field value hc],
      setValue_eq_of_skip opts s field value hc⟩,
    rfl⟩
  · rw [setValue_values]
    exact lookupKey_setKey_self s.values field value
  · rw [setValue_dirty]
    exact mem_addSet_self s.dirty field

/-- C6: every engine operation except `reset` only grows the `touched` and
`dirty` sets. -/
theorem touched_dirty_monotone (opts : FormOptions) (op : Op) (s : FormState)
    (h : op ≠ Op.opReset) :
    s.touched ⊆ (step opts op s).touched ∧ s.dirty ⊆ (step opts op s).dirty := by
  cases op with
  | opSetValue f v =>
      rw [show step opts (.opSetValue f v) s = setValue opts s f v from rfl,
        setValue_touched, setValue_dirty]
      exact ⟨fun x hx => hx, subset_addSet s.dirty f⟩
  | opHandleChange f v =>
      rw [show step opts (.opHandleChange f v) s = setValue opts s f v from rfl,
        setValue_touched, setValue_dirty]
      exact ⟨fun x hx => hx, subset_addSet s.dirty f⟩
  | opHandleBlur f =>
      rw [show step opts (.opHandleBlur f) s = handleBlur opts s f from rfl,
        handleBlur_touched, handleBlur_dirty]
      exact ⟨subset_addSet s.touched f, fun x hx => hx⟩
  | opValidateField f =>
      rw [show step opts (.opValidateField f) s = (validateField opts s f).2 from rfl,
        validateField_touched, validateField_dirty]
      exact ⟨fun x hx => hx, fun x hx => hx⟩
  | opValidateForm =>
      rw [show step opts .opValidateForm s = (validateForm opts s).2 from rfl,
        validateForm_touched, validateForm_dirty]
      exact ⟨subset_foldl_addSet (s.values.map Prod.fst) s.touched, fun x hx => hx⟩
  | opSetError f e => exact ⟨fun x hx => hx, fun x hx => hx⟩
  | opClearError f => exact ⟨fun x hx => hx, fun x hx => hx⟩
  | opResetErrors => exact ⟨fun x hx => hx, fun x hx => hx⟩
  | opHandleSubmit =>
      rw [show step opts .opHandleSubmit s = (handleSubmit opts s).state from rfl,
        handleSubmit_state]
      constructor
      · show s.touched ⊆ (validateForm opts { s with isSubmitting := true }).2.touched
        rw [validateForm_touched]
        exact subset_foldl_addSet _ s.touched
      · show s.dirty ⊆ (validateForm opts { s with isSubmitting := true }).2.dirty
        rw [validateForm_dirty]
        exact fun x hx => hx
  | opReset => exact absurd rfl h

/-- Witness for C6 at a concrete blur operation. -/
theorem touched_dirty_monotone_witness :
    (createFormState optsPlain).touched
        ⊆ (step optsPlain (.opHandleBlur "a") (createFormState optsPlain)).touched ∧
    (createFormState optsPlain).dirty
        ⊆ (step optsPlain (.opHandleBlur "a") (createFormState optsPlain)).dirty :=
  touched_dirty_monotone optsPlain (.opHandleBlur "a") (createFormState optsPlain)
    (by decide)

/-- C7: when `validateForm` fails inside `handleSubmit`, the submit callback
is never invoked (call count 0) and `isSubmitting` is false afterwards. -/
theorem handleSubmit_invalid_spec (opts : FormOptions) (s : FormState)
    (h : (validateForm opts { s with isSubmitting := true }).1 = false) :
    (handleSubmit opts s).callCount = 0 ∧
    (handleSubmit opts s).callArg = none ∧
    (handleSubmit opts s).state.isSubmitting = false := by
  have hcc : handleSubmit opts s
      = { state := { (validateForm opts { s with isSubmitting := true }).2 with
            isSubmitting := false },
          callCount := 0, callArg := none } := by
    simp [handleSubmit, h]
  rw [hcc]
  exact ⟨rfl, rfl, rfl⟩

/-- Witness for C7: `optsFailing`'s required field is empty, so the counter
stays 0 and `isSubmitting` ends false. -/
theorem handleSubmit_invalid_witness :
    (handleSubmit optsFailing (createFormState optsFailing)).callCount = 0 ∧
    (handleSubmit optsFailing (createFormState optsFailing)).callArg = none ∧
    (handleSubmit optsFailing (createFormState optsFailing)).state.isSubmitting
      = false :=
  handleSubmit_invalid_spec optsFailing (createFormState optsFailing) (by decide)

/-- C8: when `validateForm` succeeds inside `handleSubmit` and a callback is
supplied, the callback runs exactly once, on the current values snapshot;
the resulting state is the same whether the callback resolves or throws (a
thrown error is swallowed inside `handleSubmit`), and `isSubmitting` — true
during the submission — is false after completion on every path. -/
theorem handleSubmit_valid_spec (opts : FormOptions)
    (cb : List (String × Val) → SubmitOutcome) (s : FormState)
    (hcb : opts.onSubmit = some cb)
    (h : (validateForm opts { s with isSubmitting := true }).1 = true) :
    (handleSubmit opts s).callCount = 1 ∧
    (handleSubmit opts s).callArg
      = some (validateForm opts { s with isSubmitting := true }).2.values ∧
    (handleSubmit opts s).state
      = { (validateForm opts { s with isSubmitting := true }).2 with
          isSubmitting := false } ∧
    (handleSubmit opts s).state.isSubmitting = false := by
  have hcc : handleSubmit opts s
      = { state := { (validateForm opts { s with isSubmitting := true }).2 with
            isSubmitting := false },
          callCount := 1,
          callArg := some
            (validateForm opts { s with isSubmitting := true }).2.values } := by
    simp only [handleSubmit, h, hcb, Bool.not_true]
    cases cb (validateForm opts { s with isSubmitting := true }).2.values <;> simp
  rw [hcc]
  exact ⟨rfl, rfl, rfl, rfl⟩

/-- Witness for C8 on a throwing callback: invoked once, the error is
swallowed and the submitting flag is released. -/
theorem handleSubmit_valid_witness :
    (handleSubmit optsThrowing (createFormState optsThrowing)).callCount = 1 ∧
    (handleSubmit optsThrowing (createFormState optsThrowing)).callArg
      = some (validateForm optsThrowing
          { createFormState optsThrowing with isSubmitting := true }).2.values ∧
    (handleSubmit optsThrowing (createFormState optsThrowing)).state
      = { (validateForm optsThrowing
            { createFormState optsThrowing with isSubmitting := true }).2 with
          isSubmitting := false } ∧
    (handleSubmit optsThrowing (createFormState optsThrowing)).state.isSubmitting
      = false :=
  handleSubmit_valid_spec optsThrowing (fun _ => .thrown)
    (createFormState optsThrowing) rfl (by decide)

/-- C9 counterexample: from creation, writing the new field `"b"` via
`setValue` and then resetting leaves `values` different from the initial
snapshot, although the state is reachable. -/
theorem reset_not_initial_counterexample :
    Reachable optsPlain statePlainExtra ∧
    (reset optsPlain statePlainExtra).values ≠ optsPlain.initialValues :=
  ⟨Reachable.next _ Reachable.create, by decide⟩

/-- C9 (amended): after `reset()`, `errors` is empty, `touched` and `dirty`
are empty, `isValid` is true and `isSubmitting` is not modified; `values`
carries the initial value at every key of the initial snapshot, and equals
the snapshot exactly when the value map's keys are still the (duplicate-free)
keys of the snapshot — extra fields written after creation survive. -/
theorem reset_spec (opts : FormOptions) (s : FormState) :
    (reset opts s).errors = [] ∧
    (reset opts s).touched = [] ∧
    (reset opts s).dirty = [] ∧
    isValid (reset opts s) = true ∧
    (reset opts s).isSubmitting = s.isSubmitting ∧
    (∀ key ∈ opts.initialValues.map Prod.fst,
      lookupKey (reset opts s).values key = lookupKey opts.initialValues key) ∧
    (s.values.map Prod.fst = opts.initialValues.map Prod.fst →
      (opts.initialValues.map Prod.fst).Nodup →
      (reset opts s).values = opts.initialValues) := by
  refine ⟨reset_errors opts s, rfl, rfl, ?_, rfl, ?_, ?_⟩
  · have herr := reset_errors opts s
    simp [isValid, herr, lookupKey, truthyErr]
  · intro key hk
    rw [reset_values_lookup opts s key, if_pos hk]
    obtain ⟨v, hv⟩ := lookupKey_isSome_of_mem hk
    rw [hv]
    rfl
  · intro hkeys hnd
    have hmem : ∀ k ∈ opts.initialValues.map Prod.fst, k ∈ s.values.map Prod.fst := by
      intro k hk
      rw [hkeys]
      exact hk
    have hkeys2 : (reset opts s).values.map Prod.fst = s.values.map Prod.fst :=
      map_fst_foldl_setKey (opts.initialValues.map Prod.fst) _ s.values hmem
    refine assoc_ext (reset opts s).values opts.initialValues ?_ ?_ ?_
    · rw [hkeys2, hkeys]
    · rw [hkeys2, hkeys]
      exact hnd
    · intro k hk
      have hk' : k ∈ opts.initialValues.map Prod.fst := by rwa [hkeys2, hkeys] at hk
      rw [reset_values_lookup opts s k, if_pos hk']
      obtain ⟨v, hv⟩ := lookupKey_isSome_of_mem hk'
      rw [hv]
      rfl

/-- C10: `reset` rewrites only the keys of the initial snapshot — a field
absent from `initialValues` keeps its current value across `reset`, in
particular one just created by `setValue`. -/
theorem reset_preserves_extra_fields (opts : FormOptions) (s : FormState)
    (field : String) (value : Val)
    (h : field ∉ opts.initialValues.map Prod.fst) :
    lookupKey (reset opts s).values field = lookupKey s.values field ∧
    lookupKey (reset opts (setValue opts s field value)).values field
      = some value := by
  constructor
  · rw [reset_values_lookup opts s field, if_neg h]
  · rw [reset_values_lookup opts (setValue opts s field value) field, if_neg h,
      setValue_values]
    exact lookupKey_setKey_self s.values field value

/-- Witness for C10: the extra field `"b"` written into `optsPlain` survives
`reset` with its value. -/
theorem reset_preserves_extra_fields_witness :
    lookupKey (reset optsPlain (createFormState optsPlain)).values "b"
        = lookupKey (createFormState optsPlain).values "b" ∧
    lookupKey (reset optsPlain
        (setValue optsPlain (createFormState optsPlain) "b" (.vstr "y"))).values "b"
      = some (.vstr "y") :=
  reset_preserves_extra_fields optsPlain (createFormState optsPlain) "b" (.vstr "y")
    (by decide)

end SvKitForm
